import Mathlib

/-!
Verification of the metric extraction and sensor projection pipeline of the
Ultrahuman Home Assistant integration.

The development is a shallow embedding of the Python sources:
  * `custom_components/ultrahuman/coordinator.py` — the extraction section of
    `_async_update_data` (the part that turns the fetched JSON into the flat
    canonical mapping, lines 67-196), together with the `except Exception`
    boundary at lines 203-205;
  * `custom_components/ultrahuman/sensor.py` — `_infer_device_class_and_unit`,
    the static `SENSOR_DESCRIPTIONS` table, `_create_sensors_from_data` and
    `async_setup_entry`.

JSON values are modelled by the inductive `J`, with Python `None` identified
with JSON `null` and numbers modelled as rationals (Python performs true
division here, and every division in the source is by a nonzero quantity, so
rational arithmetic matches the float results exactly on the values the
claims are about; JSON booleans are left out of the model).  Python dicts are
association lists in insertion order; dict assignment is `upsert` (update in
place, else append), matching CPython's ordering semantics.  A Python
expression that can raise is modelled in the `Except PyErr` monad: `.error`
means the corresponding Python code raises, which the coordinator's
`except Exception` handler turns into an `UpdateFailed` for the whole cycle.
-/

/-- A JSON value as returned by `response.json()` (booleans omitted;
numbers as rationals). -/
inductive J where
  | null
  | num (q : Rat)
  | str (s : String)
  | arr (elems : List J)
  | obj (fields : List (String × J))

/-- Python exception kinds raised by the modelled code. -/
inductive PyErr where
  | typeError
  | attributeError
  | keyError
  | valueError
deriving DecidableEq, Repr

/-- Result of running a piece of Python code: a value, or a raised exception. -/
abbrev Res (α : Type) := Except PyErr α

/-- The flat canonical mapping (`flattened` in the coordinator), in insertion
order, keys unique. -/
abbrev Flat := List (String × J)

/-- Dict lookup: first binding for the key. -/
def lookupJ : List (String × J) → String → Option J
  | [], _ => none
  | (k, v) :: rest, key => if k == key then some v else lookupJ rest key

/-- Python dict assignment `d[k] = v`: update the existing binding in place,
else append at the end. -/
def upsert : Flat → String → J → Flat
  | [], k, v => [(k, v)]
  | (k0, v0) :: rest, k, v =>
      if k0 == k then (k, v) :: rest else (k0, v0) :: upsert rest k v

/-- Whether the value is a JSON number (`isinstance(x, (int, float))`). -/
def J.isNum : J → Bool
  | .num _ => true
  | _ => false

/-- Whether the value is a JSON object (`isinstance(x, dict)`). -/
def J.isObj : J → Bool
  | .obj _ => true
  | _ => false

/-- Whether the value is a JSON array (`isinstance(x, list)`). -/
def J.isArr : J → Bool
  | .arr _ => true
  | _ => false

/-- Whether the value is `null` (Python `None`). -/
def J.isNull : J → Bool
  | .null => true
  | _ => false

/-- Python `x == s` for a string literal `s`: true only for an equal string
(comparison with a value of another type is `False`, not an error). -/
def J.isStr : J → String → Bool
  | .str t, s => t == s
  | _, _ => false

/-- Characters of `needle` appear at the start of `hay`. -/
def leadsWith : List Char → List Char → Bool
  | [], _ => true
  | _ :: _, [] => false
  | n :: ns, h :: hs => n == h && leadsWith ns hs

/-- Substring containment on character lists. -/
def subIn (needle hay : List Char) : Bool :=
  match hay with
  | [] => leadsWith needle []
  | _ :: hs => leadsWith needle hay || subIn needle hs

/-- Python `needle in hay` on strings. -/
def strIn (needle hay : String) : Bool :=
  subIn needle.data hay.data

/-- Python `key in x`: key membership for dicts, element comparison for lists,
substring test for strings; a `TypeError` otherwise. -/
def pyIn (key : String) : J → Res Bool
  | .obj fs => .ok (lookupJ fs key).isSome
  | .arr es => .ok (es.any (fun e => e.isStr key))
  | .str s => .ok (strIn key s)
  | _ => .error .typeError

/-- Python subscription `x[key]` with a string key: dict lookup
(`KeyError` when absent), `TypeError` on any other value. -/
def pyIndex : J → String → Res J
  | .obj fs, k =>
      match lookupJ fs k with
      | some v => .ok v
      | none => .error .keyError
  | _, _ => .error .typeError

/-- Python `x.get(key, dflt)`: only dicts have `.get`
(`AttributeError` otherwise). -/
def pyGetD (x : J) (key : String) (dflt : J) : Res J :=
  match x with
  | .obj fs => .ok ((lookupJ fs key).getD dflt)
  | _ => .error .attributeError

/-- Python `x.get(key)` (default `None`). -/
def pyGet (x : J) (key : String) : Res J :=
  pyGetD x key .null

/-- Python `sum(xs)` over the modelled JSON values: total on lists of numbers,
`TypeError` as soon as a non-number is summed. -/
def pySum : List J → Res Rat
  | [] => .ok 0
  | .num q :: rest => do
      let s ← pySum rest
      .ok (q + s)
  | _ :: _ => .error .typeError

/-- One step of Python `min` on the modelled values: keep the earlier element
on ties, numeric comparison only. -/
def pyMinGo : J → List J → Res J
  | m, [] => .ok m
  | .num a, .num b :: rest => pyMinGo (if b < a then .num b else .num a) rest
  | _, _ => .error .typeError

/-- Python `min(xs)` (numbers only; `ValueError` on the empty list). -/
def pyMin : List J → Res J
  | [] => .error .valueError
  | x :: rest => pyMinGo x rest

/-- One step of Python `max` on the modelled values. -/
def pyMaxGo : J → List J → Res J
  | m, [] => .ok m
  | .num a, .num b :: rest => pyMaxGo (if a < b then .num b else .num a) rest
  | _, _ => .error .typeError

/-- Python `max(xs)` (numbers only; `ValueError` on the empty list). -/
def pyMax : List J → Res J
  | [] => .error .valueError
  | x :: rest => pyMaxGo x rest

/-- Python `len(x)`: length of lists and strings, key count of dicts,
`TypeError` otherwise. -/
def pyLen : J → Res Nat
  | .arr es => .ok es.length
  | .str s => .ok s.length
  | .obj fs => .ok fs.length
  | _ => .error .typeError

/-- Python `x / 60` (true division; `TypeError` on a non-number). -/
def pyDiv60 : J → Res Rat
  | .num a => .ok (a / 60)
  | _ => .error .typeError

/-!  The extraction rules of `_async_update_data`, one definition per
`metric_type` branch (coordinator.py lines 82-185). -/

/-- The comprehension `[v.get("value") for v in metric_obj["values"] if "value" in v]`. -/
def hrValues : List J → Res (List J)
  | [] => .ok []
  | v :: rest => do
      let b ← pyIn "value" v
      if b then
        let x ← pyGet v "value"
        let xs ← hrValues rest
        .ok (x :: xs)
      else
        hrValues rest

/-- The `metric_type == "hr"` branch (lines 82-89). -/
def hrBranch (flat : Flat) (mobj : J) : Res Flat := do
  let b ← pyIn "values" mobj
  if b then
    let vj ← pyIndex mobj "values"
    match vj with
    | .arr es => do
        let values ← hrValues es
        match values with
        | [] => .ok flat
        | _ :: _ => do
            let s ← pySum values
            let flat := upsert flat "heart_rate_avg" (.num (s / (values.length : Rat)))
            let mn ← pyMin values
            let flat := upsert flat "heart_rate_min" mn
            let mx ← pyMax values
            .ok (upsert flat "heart_rate_max" mx)
    | _ => .ok flat
  else
    .ok flat

/-- The `metric_type == "night_rhr"` branch (lines 91-99). -/
def nightRhrBranch (flat : Flat) (mobj : J) : Res Flat := do
  let b ← pyIn "avg" mobj
  if b then do
    let x ← pyIndex mobj "avg"
    .ok (upsert flat "heart_rate_resting" x)
  else do
    let b2 ← pyIn "values" mobj
    if b2 then do
      let vj ← pyIndex mobj "values"
      match vj with
      | .arr es => do
          let latest := match es.getLast? with
            | some l => l
            | none => .obj []
          let b3 ← pyIn "value" latest
          if b3 then do
            let x ← pyIndex latest "value"
            .ok (upsert flat "heart_rate_resting" x)
          else
            .ok flat
      | _ => .ok flat
    else
      .ok flat

/-- The shape shared by the `avg_sleep_hrv`, `steps`, `recovery_index`,
`metabolic_score`, `body_temperature` and `vo2_max` branches:
`if "value" in metric_obj: flattened[key] = metric_obj["value"]`. -/
def valueBranch (key : String) (flat : Flat) (mobj : J) : Res Flat := do
  let b ← pyIn "value" mobj
  if b then do
    let x ← pyIndex mobj "value"
    .ok (upsert flat key x)
  else
    .ok flat

/-- One `quick_metrics` entry of the `sleep` branch (lines 110-119). -/
def sleepQm (flat : Flat) (qm : J) : Res Flat :=
  match qm with
  | .obj fs =>
      match lookupJ fs "type" with
      | some ty =>
          if ty.isStr "total_sleep" then
            match lookupJ fs "value" with
            | some x => do
                let q ← pyDiv60 x
                .ok (upsert flat "sleep_duration" (.num q))
            | none => .ok flat
          else if ty.isStr "sleep_index" then
            match lookupJ fs "value" with
            | some x => .ok (upsert flat "sleep_quality" x)
            | none => .ok flat
          else if ty.isStr "time_in_bed" then
            match lookupJ fs "value" with
            | some x => do
                let q ← pyDiv60 x
                .ok (upsert flat "time_in_bed" (.num q))
            | none => .ok flat
          else
            .ok flat
      | none => .ok flat
  | _ => .ok flat

/-- Fold of `sleepQm` over the `quick_metrics` list. -/
def sleepQms (flat : Flat) : List J → Res Flat
  | [] => .ok flat
  | qm :: rest => do
      let flat2 ← sleepQm flat qm
      sleepQms flat2 rest

/-- The `metric_type == "sleep"` branch (lines 106-119).  Iterating a string
or a dict visits strings, which the `isinstance(qm, dict)` guard skips;
iterating a number or `None` raises. -/
def sleepBranch (flat : Flat) (mobj : J) : Res Flat := do
  let b ← pyIn "quick_metrics" mobj
  if b then do
    let qj ← pyIndex mobj "quick_metrics"
    match qj with
    | .arr qs => sleepQms flat qs
    | .str _ => .ok flat
    | .obj _ => .ok flat
    | _ => .error .typeError
  else
    .ok flat

/-- The `metric_type == "active_minutes"` branch (lines 126-131). -/
def activeMinutesBranch (flat : Flat) (mobj : J) : Res Flat := do
  let b ← pyIn "value" mobj
  if b then do
    let x ← pyIndex mobj "value"
    let flat := upsert flat "activity_minutes" x
    let q ← pyDiv60 x
    .ok (upsert flat "activity_hours" (.num q))
  else
    .ok flat

/-- One `quick_metrics` entry of the `motion` branch (lines 140-146):
`calories` and `total_calories` both write `total_calories`, no division,
so the step is total. -/
def motionQm (flat : Flat) (qm : J) : Flat :=
  match qm with
  | .obj fs =>
      match lookupJ fs "type" with
      | some ty =>
          if ty.isStr "calories" then
            match lookupJ fs "value" with
            | some x => upsert flat "total_calories" x
            | none => flat
          else if ty.isStr "total_calories" then
            match lookupJ fs "value" with
            | some x => upsert flat "total_calories" x
            | none => flat
          else
            flat
      | none => flat
  | _ => flat

/-- Fold of `motionQm`. -/
def motionQms (flat : Flat) : List J → Flat
  | [] => flat
  | qm :: rest => motionQms (motionQm flat qm) rest

/-- The `metric_type == "motion"` branch (lines 133-146). -/
def motionBranch (flat : Flat) (mobj : J) : Res Flat := do
  let b ← pyIn "value" mobj
  let flat ← if b then do
      let x ← pyIndex mobj "value"
      pure (upsert flat "movement_index" x)
    else
      pure flat
  let b2 ← pyIn "quick_metrics" mobj
  if b2 then do
    let qj ← pyIndex mobj "quick_metrics"
    match qj with
    | .arr qs => .ok (motionQms flat qs)
    | .str _ => .ok flat
    | .obj _ => .ok flat
    | _ => .error .typeError
  else
    .ok flat

/-- One `quick_metrics` entry of the `activity_index` branch (lines 155-165). -/
def activityIndexQm (flat : Flat) (qm : J) : Res Flat :=
  match qm with
  | .obj fs =>
      match lookupJ fs "type" with
      | some ty =>
          if ty.isStr "calories" then
            match lookupJ fs "value" with
            | some x => .ok (upsert flat "total_calories" x)
            | none => .ok flat
          else if ty.isStr "total_calories" then
            match lookupJ fs "value" with
            | some x => .ok (upsert flat "total_calories" x)
            | none => .ok flat
          else if ty.isStr "active_minutes" then
            match lookupJ fs "value" with
            | some x => do
                let flat := upsert flat "activity_minutes" x
                let q ← pyDiv60 x
                .ok (upsert flat "activity_hours" (.num q))
            | none => .ok flat
          else
            .ok flat
      | none => .ok flat
  | _ => .ok flat

/-- Fold of `activityIndexQm`. -/
def activityIndexQms (flat : Flat) : List J → Res Flat
  | [] => .ok flat
  | qm :: rest => do
      let flat2 ← activityIndexQm flat qm
      activityIndexQms flat2 rest

/-- The `metric_type == "activity_index"` branch (lines 148-165). -/
def activityIndexBranch (flat : Flat) (mobj : J) : Res Flat := do
  let b ← pyIn "value" mobj
  let flat ← if b then do
      let x ← pyIndex mobj "value"
      pure (upsert flat "activity_index" x)
    else
      pure flat
  let b2 ← pyIn "quick_metrics" mobj
  if b2 then do
    let qj ← pyIndex mobj "quick_metrics"
    match qj with
    | .arr qs => activityIndexQms flat qs
    | .str _ => .ok flat
    | .obj _ => .ok flat
    | _ => .error .typeError
  else
    .ok flat

/-- Processing of one element of the date's metric list (lines 76-185):
records that are not dicts or lack `type`/`object` are skipped, then the
branch is selected by the `elif` chain on `metric["type"]`. -/
def processRecord (flat : Flat) (metric : J) : Res Flat :=
  match metric with
  | .obj fs =>
      match lookupJ fs "type", lookupJ fs "object" with
      | some mtype, some mobj =>
          if mtype.isStr "hr" then hrBranch flat mobj
          else if mtype.isStr "night_rhr" then nightRhrBranch flat mobj
          else if mtype.isStr "avg_sleep_hrv" then valueBranch "hrv" flat mobj
          else if mtype.isStr "sleep" then sleepBranch flat mobj
          else if mtype.isStr "steps" then valueBranch "steps" flat mobj
          else if mtype.isStr "active_minutes" then activeMinutesBranch flat mobj
          else if mtype.isStr "motion" then motionBranch flat mobj
          else if mtype.isStr "activity_index" then activityIndexBranch flat mobj
          else if mtype.isStr "recovery_index" then valueBranch "recovery_index" flat mobj
          else if mtype.isStr "metabolic_score" then valueBranch "metabolic_score" flat mobj
          else if mtype.isStr "body_temperature" then valueBranch "body_temperature" flat mobj
          else if mtype.isStr "vo2_max" then valueBranch "vo2_max" flat mobj
          else .ok flat
      | _, _ => .ok flat
  | _ => .ok flat

/-- The recognised `metric_type` tags of the `elif` chain. -/
def recognizedTypes : List String :=
  ["hr", "night_rhr", "avg_sleep_hrv", "sleep", "steps", "active_minutes",
   "motion", "activity_index", "recovery_index", "metabolic_score",
   "body_temperature", "vo2_max"]

/-- The extraction section of `_async_update_data` (coordinator.py lines
67-196), from the parsed JSON to the flat mapping.  `.error` models an
exception escaping the extraction code and being converted to `UpdateFailed`
by the `except Exception` handler at lines 203-205; iterating a string or a
dict for the date's list visits only strings, which the per-record guard
skips. -/
def extract (raw : J) (today : String) : Res Flat :=
  match raw with
  | .obj fs =>
      if (lookupJ fs "data").isSome then do
        let d ← pyGetD raw "data" (.obj [])
        let md ← pyGetD d "metrics" (.obj [])
        let todayMetrics ← pyGetD md today (.arr [])
        match todayMetrics with
        | .arr recs => recs.foldlM processRecord []
        | .str _ => .ok []
        | .obj _ => .ok []
        | _ => .error .typeError
      else
        .ok fs
  | _ => .ok []

/-! Sensor platform model (`sensor.py`). -/

/-- The Home Assistant sensor device classes used by the source. -/
inductive DeviceClass where
  | temperature
  | duration
  | frequency
  | energy
  | distance
  | weight
deriving DecidableEq, Repr

/-- The Home Assistant sensor state classes used by the source. -/
inductive StateClass where
  | measurement
  | totalIncreasing
deriving DecidableEq, Repr

/-- Python `key.lower()` on the ASCII names appearing here: per-character
lowercasing (the executable form of `String.toLower`). -/
def pyLower (s : String) : String :=
  String.mk (s.data.map Char.toLower)

/-- The function `_infer_device_class_and_unit` (sensor.py lines 46-83):
substring rules on the lower-cased key, first match wins. -/
def infer_device_class_and_unit (key : String) :
    Option DeviceClass × Option String × Option StateClass :=
  let keyLower := pyLower key
  if strIn "temperature" keyLower || strIn "temp" keyLower then
    (some .temperature, some "°C", some .measurement)
  else if strIn "duration" keyLower || strIn "time" keyLower || strIn "sleep" keyLower then
    if strIn "sleep" keyLower then
      (some .duration, some "min", some .measurement)
    else
      (some .duration, some "s", some .measurement)
  else if strIn "heart_rate" keyLower || strIn "hrv" keyLower || strIn "pulse" keyLower then
    if strIn "hrv" keyLower then
      (none, some "ms", some .measurement)
    else
      (some .frequency, some "bpm", some .measurement)
  else if strIn "step" keyLower then
    (none, some "steps", some .totalIncreasing)
  else if strIn "energy" keyLower || strIn "calorie" keyLower then
    (some .energy, some "kcal", some .totalIncreasing)
  else if strIn "distance" keyLower then
    (some .distance, some "m", some .totalIncreasing)
  else if strIn "weight" keyLower then
    (some .weight, some "kg", some .measurement)
  else
    (none, none, some .measurement)

/-- An `UltrahumanSensorEntityDescription` (display name and icon, which are
presentation only, are omitted).  `valueFn` models `value_fn`; its `.error`
result models the accessor raising at read time. -/
structure Desc where
  key : String
  deviceClass : Option DeviceClass := none
  unit : Option String := none
  stateClass : Option StateClass := none
  valueFn : Flat → Res J

/-- Python `d.get(k)` on the (typed) coordinator mapping: the value, `None`
when absent. -/
def dGet (d : Flat) (k : String) : J :=
  (lookupJ d k).getD .null

/-- Python `d.get(k, dflt)` on the coordinator mapping. -/
def dGetD (d : Flat) (k : String) (dflt : J) : J :=
  (lookupJ d k).getD dflt

/-- The `value_fn` of every static description: `lambda d: d.get(key)`. -/
def staticValueFn (key : String) : Flat → Res J :=
  fun d => .ok (dGet d key)

/-- The static `SENSOR_DESCRIPTIONS` table (sensor.py lines 88-211). -/
def SENSOR_DESCRIPTIONS : List Desc :=
  [ { key := "heart_rate_resting", deviceClass := some .frequency, unit := some "bpm",
      stateClass := some .measurement, valueFn := staticValueFn "heart_rate_resting" },
    { key := "heart_rate_avg", deviceClass := some .frequency, unit := some "bpm",
      stateClass := some .measurement, valueFn := staticValueFn "heart_rate_avg" },
    { key := "heart_rate_min", deviceClass := some .frequency, unit := some "bpm",
      stateClass := some .measurement, valueFn := staticValueFn "heart_rate_min" },
    { key := "heart_rate_max", deviceClass := some .frequency, unit := some "bpm",
      stateClass := some .measurement, valueFn := staticValueFn "heart_rate_max" },
    { key := "hrv", unit := some "ms",
      stateClass := some .measurement, valueFn := staticValueFn "hrv" },
    { key := "sleep_duration", deviceClass := some .duration, unit := some "min",
      stateClass := some .measurement, valueFn := staticValueFn "sleep_duration" },
    { key := "time_in_bed", deviceClass := some .duration, unit := some "min",
      stateClass := some .measurement, valueFn := staticValueFn "time_in_bed" },
    { key := "sleep_quality",
      stateClass := some .measurement, valueFn := staticValueFn "sleep_quality" },
    { key := "steps", unit := some "steps",
      stateClass := some .totalIncreasing, valueFn := staticValueFn "steps" },
    { key := "activity_index",
      stateClass := some .measurement, valueFn := staticValueFn "activity_index" },
    { key := "recovery_index",
      stateClass := some .measurement, valueFn := staticValueFn "recovery_index" },
    { key := "metabolic_score",
      stateClass := some .measurement, valueFn := staticValueFn "metabolic_score" },
    { key := "body_temperature", deviceClass := some .temperature, unit := some "°C",
      stateClass := some .measurement, valueFn := staticValueFn "body_temperature" },
    { key := "vo2_max", unit := some "ml/kg/min",
      stateClass := some .measurement, valueFn := staticValueFn "vo2_max" } ]

/-- The set `predefined_keys = {desc.key for desc in SENSOR_DESCRIPTIONS}`. -/
def predefinedKeys : List String :=
  SENSOR_DESCRIPTIONS.map Desc.key

/-- Python `str.replace(c, "", 1)`: drop the first occurrence of the
character. -/
def removeFirstChar : List Char → Char → List Char
  | [], _ => []
  | c :: rest, t => if c == t then rest else c :: removeFirstChar rest t

/-- Python `str.isdigit` restricted to the ASCII digits appearing here. -/
def pyIsDigit (s : List Char) : Bool :=
  !s.isEmpty && s.all (fun c => '0' ≤ c && c ≤ '9')

/-- The numeric-string test
`value.replace(".", "", 1).replace("-", "", 1).isdigit()`. -/
def numCheck (s : String) : Bool :=
  pyIsDigit (removeFirstChar (removeFirstChar s.data '.') '-')

/-- Split a character list at the first dot. -/
def splitDot : List Char → List Char × Option (List Char)
  | [] => ([], none)
  | c :: rest =>
      if c == '.' then ([], some rest)
      else
        let (a, b) := splitDot rest
        (c :: a, b)

/-- Value of a digit run. -/
def digitsVal : List Char → Nat
  | [] => 0
  | c :: rest => digitsVal rest + (c.toNat - '0'.toNat) * 10 ^ rest.length

/-- Python `float(s)` on the strings reachable behind `numCheck`: an optional
sign, then digits with at most one dot and at least one digit (exponents,
whitespace and the named constants never pass `numCheck`).  `none` models
`float` raising `ValueError`. -/
def parseFloat (s : String) : Option Rat :=
  let (neg, cs) := match s.data with
    | '-' :: rest => (true, rest)
    | cs => (false, cs)
  let (ip, fp) := splitDot cs
  let fpl := fp.getD []
  if (ip ++ fpl).isEmpty || !(ip ++ fpl).all (fun c => '0' ≤ c && c ≤ '9') then
    none
  else
    let v : Rat := (digitsVal ip : Rat) + (digitsVal fpl : Rat) / ((10 : Rat) ^ fpl.length)
    some (if neg then -v else v)

/-- `full_key = f"{prefix}_{key}" if prefix else key`. -/
def fullKeyOf (pfx key : String) : String :=
  if pfx == "" then key else pfx ++ "_" ++ key

/-- The `value_fn` of a dynamically created numeric sensor
(sensor.py lines 248-252). -/
def numValueFn (pfx fullk origk : String) : Flat → Res J :=
  fun d =>
    if pfx == "" then .ok (dGet d fullk)
    else
      match dGet d pfx with
      | .obj gs => .ok ((lookupJ gs origk).getD .null)
      | _ => .ok .null

/-- The `value_fn` of a numeric-string sensor (lines 271-274): re-checks and
converts at read time; a string passing the check but rejected by `float`
raises there. -/
def floatStrValueFn (k : String) : Flat → Res J :=
  fun d =>
    match dGet d k with
    | .str s =>
        if numCheck s then
          match parseFloat s with
          | some q => .ok (.num q)
          | none => .error .valueError
        else
          .ok (.str s)
    | v => .ok v

/-- The `value_fn` of a plain string sensor (lines 286, 299). -/
def strValueFn (k : String) : Flat → Res J :=
  fun d => .ok (dGet d k)

/-- The `value_fn` of a `<key>_count` sensor (lines 320-324):
`len(d.get(k, []))` at top level, the nested variant behind an
`isinstance(d.get(p), dict)` guard, `0` otherwise. -/
def countValueFn (pfx origk : String) : Flat → Res J :=
  fun d =>
    if pfx == "" then do
      let n ← pyLen (dGetD d origk (.arr []))
      .ok (.num (n : Rat))
    else
      match dGet d pfx with
      | .obj gs => do
          let n ← pyLen ((lookupJ gs origk).getD (.arr []))
          .ok (.num (n : Rat))
      | _ => .ok (.num 0)

/-- The `value_fn` of a `<key>_sum` sensor (lines 335-339): `sum` of the list
when present (raising on a non-numeric element), `None` otherwise. -/
def sumValueFn (pfx origk : String) : Flat → Res J :=
  fun d =>
    if pfx == "" && (dGet d origk).isArr then
      match dGetD d origk (.arr []) with
      | .arr xs => do
          let s ← pySum xs
          .ok (.num s)
      | _ => .ok .null
    else
      match dGet d pfx with
      | .obj gs =>
          match (lookupJ gs origk).getD .null with
          | .arr xs => do
              let s ← pySum xs
              .ok (.num s)
          | _ => .ok .null
      | _ => .ok .null

/-- Descriptor built for a numeric leftover value (lines 239-255):
inferred schema, `state_class or MEASUREMENT`. -/
def numericDesc (pfx origk fullk : String) : Desc :=
  let (dc, unit, sc) := infer_device_class_and_unit fullk
  { key := fullk, deviceClass := dc, unit := unit,
    stateClass := some (sc.getD .measurement), valueFn := numValueFn pfx fullk origk }

/-- Descriptor built for a numeric-string leftover value (lines 262-277). -/
def floatStrDesc (fullk : String) : Desc :=
  let (dc, unit, sc) := infer_device_class_and_unit fullk
  { key := fullk, deviceClass := dc, unit := unit,
    stateClass := some (sc.getD .measurement), valueFn := floatStrValueFn fullk }

/-- Descriptor built for a plain string leftover value (lines 280-302). -/
def strDesc (fullk : String) : Desc :=
  { key := fullk, valueFn := strValueFn fullk }

/-- The `<key>_count` descriptor (lines 313-327). -/
def countDesc (pfx origk fullk : String) : Desc :=
  { key := fullk ++ "_count", stateClass := some .measurement,
    valueFn := countValueFn pfx origk }

/-- The `<key>_sum` descriptor (lines 328-342). -/
def sumDesc (pfx origk fullk : String) : Desc :=
  { key := fullk ++ "_sum", stateClass := some .measurement,
    valueFn := sumValueFn pfx origk }

mutual

/-- Descriptors produced for one key/value pair of
`_create_sensors_from_data` after the predefined-keys skip check:
dispatch on the value's runtime type (sensor.py lines 232-342). -/
def descsForValue (pfx origk fullk : String) : J → List Desc
  | .num _ => [numericDesc pfx origk fullk]
  | .str s =>
      if numCheck s then
        match parseFloat s with
        | some _ => [floatStrDesc fullk]
        | none => [strDesc fullk]
      else
        [strDesc fullk]
  | .obj gs => create_sensors_from_data gs fullk
  | .arr es =>
      match es with
      | [] => []
      | e :: _ =>
          if e.isNum then [countDesc pfx origk fullk, sumDesc pfx origk fullk]
          else []
  | .null => []

/-- The function `_create_sensors_from_data` (sensor.py lines 214-344),
as the list of descriptors it appends, in iteration order. -/
def create_sensors_from_data : List (String × J) → String → List Desc
  | [], _ => []
  | (key, value) :: rest, pfx =>
      let fullk := fullKeyOf pfx key
      (if fullk ∈ predefinedKeys ∨ key ∈ predefinedKeys then []
       else descsForValue pfx key fullk value)
      ++ create_sensors_from_data rest pfx

end

/-- The entity list built by `async_setup_entry` (sensor.py lines 369-380):
only the static descriptions whose accessor yields a non-`None` value are
kept; an accessor raising is caught and the description skipped.
`_create_sensors_from_data` is not called here. -/
def async_setup_entry (data : Flat) : List Desc :=
  SENSOR_DESCRIPTIONS.filter (fun desc =>
    match desc.valueFn data with
    | .ok v => !v.isNull
    | .error _ => false)

/-! Test payload builders and evaluation lemmas. -/

/-- An `hr` metric record whose `values` are the given numbers. -/
def hrRecord (vs : List Rat) : J :=
  J.obj [("type", J.str "hr"),
         ("object", J.obj [("values", J.arr (vs.map (fun q => J.obj [("value", J.num q)])))])]

/-- A `sleep` metric record with a single `total_sleep` quick metric. -/
def sleepRecord (v : Rat) : J :=
  J.obj [("type", J.str "sleep"),
         ("object", J.obj [("quick_metrics",
            J.arr [J.obj [("type", J.str "total_sleep"), ("value", J.num v)]])])]

/-- A `motion` record carrying a `calories` quick metric. -/
def motionCalRecord (c : Rat) : J :=
  J.obj [("type", J.str "motion"),
         ("object", J.obj [("quick_metrics",
            J.arr [J.obj [("type", J.str "calories"), ("value", J.num c)]])])]

/-- An `activity_index` record carrying a `calories` quick metric. -/
def activityIndexCalRecord (c : Rat) : J :=
  J.obj [("type", J.str "activity_index"),
         ("object", J.obj [("quick_metrics",
            J.arr [J.obj [("type", J.str "calories"), ("value", J.num c)]])])]

/-- An `active_minutes` record with a plain `value`. -/
def activeMinutesRecord (m : Rat) : J :=
  J.obj [("type", J.str "active_minutes"), ("object", J.obj [("value", J.num m)])]

/-- An `activity_index` record carrying an `active_minutes` quick metric. -/
def activityIndexMinRecord (m : Rat) : J :=
  J.obj [("type", J.str "activity_index"),
         ("object", J.obj [("quick_metrics",
            J.arr [J.obj [("type", J.str "active_minutes"), ("value", J.num m)]])])]

/-- Payload carrying the given records under `data.metrics.<date>`. -/
def mkPayload (date : String) (recs : List J) : J :=
  J.obj [("data", J.obj [("metrics", J.obj [(date, J.arr recs)])])]

/-- The inference rule table as the specification states it: a priority list
of (matcher, schema) pairs applied to the lower-cased name, first match wins,
with the default instantaneous/unitless schema when no rule matches.
Written from the spec text of section 4.2, to be compared with the source's
`_infer_device_class_and_unit`. -/
def infer_spec (name : String) :
    Option DeviceClass × Option String × Option StateClass :=
  let k := pyLower name
  let rules : List ((String → Bool) ×
      (String → Option DeviceClass × Option String × Option StateClass)) :=
    [ (fun s => strIn "temperature" s || strIn "temp" s,
        fun _ => (some .temperature, some "°C", some .measurement)),
      (fun s => strIn "duration" s || strIn "time" s || strIn "sleep" s,
        fun s => (some .duration, some (if strIn "sleep" s then "min" else "s"),
                  some .measurement)),
      (fun s => strIn "heart_rate" s || strIn "hrv" s || strIn "pulse" s,
        fun s => if strIn "hrv" s then (none, some "ms", some .measurement)
                 else (some .frequency, some "bpm", some .measurement)),
      (fun s => strIn "step" s,
        fun _ => (none, some "steps", some .totalIncreasing)),
      (fun s => strIn "energy" s || strIn "calorie" s,
        fun _ => (some .energy, some "kcal", some .totalIncreasing)),
      (fun s => strIn "distance" s,
        fun _ => (some .distance, some "m", some .totalIncreasing)),
      (fun s => strIn "weight" s,
        fun _ => (some .weight, some "kg", some .measurement)) ]
  match rules.find? (fun r => r.1 k) with
  | some r => r.2 k
  | none => (none, none, some .measurement)

/-! Well-formedness: a sufficient shape condition under which the extraction
raises nothing.  Every field is allowed to be absent; where a field is
present it must have the container/numeric type the code expects before
using it without an `isinstance` guard. -/

/-- A `value` field, when present, holds a number. -/
def wfValueNum (fs : List (String × J)) : Bool :=
  match lookupJ fs "value" with
  | some x => x.isNum
  | none => true

/-- An element of `hr.values`: a dict whose `value`, when present, is a
number. -/
def wfHrElem : J → Bool
  | .obj fs => wfValueNum fs
  | _ => false

/-- The object of an `hr` record. -/
def wfHr : J → Bool
  | .obj fs =>
      match lookupJ fs "values" with
      | some (.arr es) => es.all wfHrElem
      | some _ => true
      | none => true
  | _ => false

/-- The object of a `night_rhr` record: without `avg`, a nonempty `values`
list must end in a dict. -/
def wfNightRhr : J → Bool
  | .obj fs =>
      match lookupJ fs "avg" with
      | some _ => true
      | none =>
          match lookupJ fs "values" with
          | some (.arr es) =>
              match es.getLast? with
              | some (.obj _) => true
              | some _ => false
              | none => true
          | some _ => true
          | none => true
  | _ => false

/-- A `sleep` quick metric: `value` must be numeric for the two divided
types. -/
def wfSleepQmItem : J → Bool
  | .obj fs =>
      match lookupJ fs "type" with
      | some ty =>
          if ty.isStr "total_sleep" || ty.isStr "time_in_bed" then wfValueNum fs
          else true
      | none => true
  | _ => true

/-- A `quick_metrics` field, when present, is iterable with well-formed
entries (strings and dicts iterate to strings, which are skipped). -/
def wfQuickMetrics (fs : List (String × J)) (item : J → Bool) : Bool :=
  match lookupJ fs "quick_metrics" with
  | some (.arr qs) => qs.all item
  | some (.str _) => true
  | some (.obj _) => true
  | some _ => false
  | none => true

/-- The object of a `sleep` record. -/
def wfSleep : J → Bool
  | .obj fs => wfQuickMetrics fs wfSleepQmItem
  | _ => false

/-- The object of an `active_minutes` record (its `value` is divided
by 60). -/
def wfActiveMinutes : J → Bool
  | .obj fs => wfValueNum fs
  | _ => false

/-- The object of a `motion` record (its quick metrics are only copied,
never divided). -/
def wfMotion : J → Bool
  | .obj fs => wfQuickMetrics fs (fun _ => true)
  | _ => false

/-- An `activity_index` quick metric: `active_minutes` values are divided. -/
def wfAiQmItem : J → Bool
  | .obj fs =>
      match lookupJ fs "type" with
      | some ty => if ty.isStr "active_minutes" then wfValueNum fs else true
      | none => true
  | _ => true

/-- The object of an `activity_index` record. -/
def wfActivityIndex : J → Bool
  | .obj fs => wfQuickMetrics fs wfAiQmItem
  | _ => false

/-- One element of the date's metric list: anything not shaped as a record
is skipped; a recognised record's object must satisfy its branch's shape. -/
def wfRecord : J → Bool
  | .obj fs =>
      match lookupJ fs "type", lookupJ fs "object" with
      | some ty, some ob =>
          if ty.isStr "hr" then wfHr ob
          else if ty.isStr "night_rhr" then wfNightRhr ob
          else if ty.isStr "avg_sleep_hrv" then ob.isObj
          else if ty.isStr "sleep" then wfSleep ob
          else if ty.isStr "steps" then ob.isObj
          else if ty.isStr "active_minutes" then wfActiveMinutes ob
          else if ty.isStr "motion" then wfMotion ob
          else if ty.isStr "activity_index" then wfActivityIndex ob
          else if ty.isStr "recovery_index" then ob.isObj
          else if ty.isStr "metabolic_score" then ob.isObj
          else if ty.isStr "body_temperature" then ob.isObj
          else if ty.isStr "vo2_max" then ob.isObj
          else true
      | _, _ => true
  | _ => true

/-- Shape condition on the whole payload: all levels optional, but any
present level must be the container type the code indexes into. -/
def wfPayload (raw : J) (today : String) : Bool :=
  match raw with
  | .obj fs =>
      match lookupJ fs "data" with
      | some (.obj gs) =>
          (match lookupJ gs "metrics" with
           | some (.obj hs) =>
               (match lookupJ hs today with
                | some (.arr recs) => recs.all wfRecord
                | some (.str _) => true
                | some (.obj _) => true
                | some _ => false
                | none => true)
           | some _ => false
           | none => true)
      | some _ => false
      | none => true
  | _ => true

theorem hrValues_map_num (vs : List Rat) :
    hrValues (vs.map (fun q => J.obj [("value", J.num q)])) = .ok (vs.map J.num) := by
  induction vs with
  | nil => rfl
  | cons v rest ih =>
      simp [hrValues, pyIn, pyGet, pyGetD, lookupJ, Bind.bind, Except.bind, ih]

theorem pySum_map_num (vs : List Rat) :
    pySum (vs.map J.num) = .ok vs.sum := by
  induction vs with
  | nil => rfl
  | cons v rest ih => simp [pySum, Bind.bind, Except.bind, ih]

theorem pyMinGo_num (vs : List Rat) : ∀ a : Rat,
    ∃ m, pyMinGo (J.num a) (vs.map J.num) = .ok (J.num m) ∧
      (m = a ∨ m ∈ vs) ∧ m ≤ a ∧ ∀ x ∈ vs, m ≤ x := by
  induction vs with
  | nil =>
      intro a
      exact ⟨a, rfl, Or.inl rfl, le_refl a, by simp⟩
  | cons v rest ih =>
      intro a
      by_cases h : v < a
      · obtain ⟨m, hm, hmem, hle, hall⟩ := ih v
        refine ⟨m, ?_, ?_, ?_, ?_⟩
        · simpa [pyMinGo, h] using hm
        · rcases hmem with rfl | hmem
          · exact Or.inr (by simp)
          · exact Or.inr (by simp [hmem])
        · exact le_trans hle (le_of_lt h)
        · intro x hx
          rcases List.mem_cons.mp hx with rfl | hx
          · exact hle
          · exact hall x hx
      · obtain ⟨m, hm, hmem, hle, hall⟩ := ih a
        refine ⟨m, ?_, ?_, ?_, ?_⟩
        · simpa [pyMinGo, h] using hm
        · rcases hmem with rfl | hmem
          · exact Or.inl rfl
          · exact Or.inr (by simp [hmem])
        · exact hle
        · intro x hx
          rcases List.mem_cons.mp hx with rfl | hx
          · exact le_trans hle (not_lt.mp h)
          · exact hall x hx

theorem pyMaxGo_num (vs : List Rat) : ∀ a : Rat,
    ∃ m, pyMaxGo (J.num a) (vs.map J.num) = .ok (J.num m) ∧
      (m = a ∨ m ∈ vs) ∧ a ≤ m ∧ ∀ x ∈ vs, x ≤ m := by
  induction vs with
  | nil =>
      intro a
      exact ⟨a, rfl, Or.inl rfl, le_refl a, by simp⟩
  | cons v rest ih =>
      intro a
      by_cases h : a < v
      · obtain ⟨m, hm, hmem, hle, hall⟩ := ih v
        refine ⟨m, ?_, ?_, ?_, ?_⟩
        · simpa [pyMaxGo, h] using hm
        · rcases hmem with rfl | hmem
          · exact Or.inr (by simp)
          · exact Or.inr (by simp [hmem])
        · exact le_trans (le_of_lt h) hle
        · intro x hx
          rcases List.mem_cons.mp hx with rfl | hx
          · exact hle
          · exact hall x hx
      · obtain ⟨m, hm, hmem, hle, hall⟩ := ih a
        refine ⟨m, ?_, ?_, ?_, ?_⟩
        · simpa [pyMaxGo, h] using hm
        · rcases hmem with rfl | hmem
          · exact Or.inl rfl
          · exact Or.inr (by simp [hmem])
        · exact hle
        · intro x hx
          rcases List.mem_cons.mp hx with rfl | hx
          · exact le_trans (not_lt.mp h) hle
          · exact hall x hx

/-- C5.  For every `hr` record, extraction derives `heart_rate_avg` as the
arithmetic mean, `heart_rate_min` as the minimum and `heart_rate_max` as the
maximum over `values[].value`, omits all three on an empty `values`, and the
record with values 60, 70, 80 yields 70, 60 and 80. -/
theorem hr_mean_min_max :
    (∀ (vs : List Rat) (flat : Flat), vs ≠ [] →
      ∃ mn mx,
        processRecord flat (hrRecord vs) =
          .ok (upsert (upsert (upsert flat
                "heart_rate_avg" (.num (vs.sum / (vs.length : Rat))))
                "heart_rate_min" (.num mn))
                "heart_rate_max" (.num mx)) ∧
        mn ∈ vs ∧ (∀ x ∈ vs, mn ≤ x) ∧ mx ∈ vs ∧ (∀ x ∈ vs, x ≤ mx)) ∧
    (∀ flat : Flat, processRecord flat (hrRecord []) = .ok flat) ∧
    processRecord [] (hrRecord [60, 70, 80]) =
      .ok [("heart_rate_avg", J.num 70), ("heart_rate_min", J.num 60),
           ("heart_rate_max", J.num 80)] := by
  have main : ∀ (vs : List Rat) (flat : Flat), vs ≠ [] →
      ∃ mn mx,
        processRecord flat (hrRecord vs) =
          .ok (upsert (upsert (upsert flat
                "heart_rate_avg" (.num (vs.sum / (vs.length : Rat))))
                "heart_rate_min" (.num mn))
                "heart_rate_max" (.num mx)) ∧
        mn ∈ vs ∧ (∀ x ∈ vs, mn ≤ x) ∧ mx ∈ vs ∧ (∀ x ∈ vs, x ≤ mx) := by
    intro vs flat hne
    match vs with
    | v :: rest =>
      obtain ⟨mn, hmn, hmnmem, hmnle, hmnall⟩ := pyMinGo_num rest v
      obtain ⟨mx, hmx, hmxmem, hmxle, hmxall⟩ := pyMaxGo_num rest v
      refine ⟨mn, mx, ?_, ?_, ?_, ?_, ?_⟩
      · have hv := hrValues_map_num (v :: rest)
        have hs := pySum_map_num (v :: rest)
        simp only [List.map_cons] at hv hs
        simp [processRecord, hrRecord, hrBranch, pyIn, pyIndex, lookupJ, J.isStr,
              Bind.bind, Except.bind, hv, hs, pyMin, pyMax, hmn, hmx]
      · rcases hmnmem with rfl | h
        · simp
        · simp [h]
      · intro x hx
        rcases List.mem_cons.mp hx with rfl | hx
        · exact hmnle
        · exact hmnall x hx
      · rcases hmxmem with rfl | h
        · simp
        · simp [h]
      · intro x hx
        rcases List.mem_cons.mp hx with rfl | hx
        · exact hmxle
        · exact hmxall x hx
  refine ⟨main, ?_, ?_⟩
  · intro flat
    simp [processRecord, hrRecord, hrBranch, pyIn, pyIndex, lookupJ, J.isStr,
          Bind.bind, Except.bind, hrValues]
  · simp +decide [processRecord, hrRecord, hrBranch, hrValues, pySum, pyMin,
      pyMax, pyIn, pyIndex, pyGet, pyGetD, lookupJ, J.isStr, Bind.bind, Except.bind]
    norm_num [pyMinGo, pyMaxGo, upsert]
    simp +decide

/-- C6.  For every `sleep` record whose `quick_metrics` hold a `total_sleep`
entry, extraction sets `sleep_duration` to the value divided by 60, and the
27000-second example yields 450. -/
theorem sleep_duration_seconds_to_minutes :
    (∀ (v : Rat) (flat : Flat),
      processRecord flat (sleepRecord v) =
        .ok (upsert flat "sleep_duration" (.num (v / 60)))) ∧
    processRecord [] (sleepRecord 27000) = .ok [("sleep_duration", J.num 450)] := by
  constructor
  · intro v flat
    simp [processRecord, sleepRecord, sleepBranch, sleepQms, sleepQm, pyDiv60,
          pyIn, pyIndex, lookupJ, J.isStr, Bind.bind, Except.bind]
  · simp +decide [processRecord, sleepRecord, sleepBranch, sleepQms, sleepQm, pyDiv60,
      pyIn, pyIndex, lookupJ, J.isStr, Bind.bind, Except.bind, upsert]
    norm_num

/-- Witness for C5 at the hr record with values 60, 70, 80. -/
theorem hr_mean_min_max_witness :
    ∃ mn mx,
      processRecord [] (hrRecord [60, 70, 80]) =
        .ok (upsert (upsert (upsert []
              "heart_rate_avg"
              (.num (([60, 70, 80] : List Rat).sum / ((([60, 70, 80] : List Rat).length : Nat) : Rat))))
              "heart_rate_min" (.num mn))
              "heart_rate_max" (.num mx)) ∧
      mn ∈ ([60, 70, 80] : List Rat) ∧ (∀ x ∈ ([60, 70, 80] : List Rat), mn ≤ x) ∧
      mx ∈ ([60, 70, 80] : List Rat) ∧ (∀ x ∈ ([60, 70, 80] : List Rat), x ≤ mx) :=
  hr_mean_min_max.1 [60, 70, 80] [] (by simp)

/-- C10.  `total_calories` is written both by `motion` and by `activity_index`
records, and `activity_minutes`/`activity_hours` both by `active_minutes` and
by `activity_index` records; whichever record comes later in the date's list
wins, across different record types. -/
theorem cross_type_last_wins (t : String) (a b : Rat) :
    (extract (mkPayload t [motionCalRecord a, activityIndexCalRecord b]) t =
        .ok [("total_calories", J.num b)]) ∧
    (extract (mkPayload t [activityIndexCalRecord b, motionCalRecord a]) t =
        .ok [("total_calories", J.num a)]) ∧
    (extract (mkPayload t [activeMinutesRecord a, activityIndexMinRecord b]) t =
        .ok [("activity_minutes", J.num b), ("activity_hours", J.num (b / 60))]) ∧
    (extract (mkPayload t [activityIndexMinRecord b, activeMinutesRecord a]) t =
        .ok [("activity_minutes", J.num a), ("activity_hours", J.num (a / 60))]) := by
  refine ⟨?_, ?_, ?_, ?_⟩ <;>
    simp +decide [extract, mkPayload, processRecord, motionCalRecord,
      activityIndexCalRecord, activeMinutesRecord, activityIndexMinRecord,
      motionBranch, motionQms, motionQm, activityIndexBranch, activityIndexQms,
      activityIndexQm, activeMinutesBranch, pyDiv60, pyGetD, pyIn, pyIndex,
      lookupJ, upsert, J.isStr, Bind.bind, Except.bind, Pure.pure, Except.pure, List.foldlM]

/-- C3 counterexample: a fetched dict without a `data` key is returned
unchanged by extraction, not replaced by the empty mapping. -/
theorem unexpected_shape_counterexample :
    extract (J.obj [("foo", J.num 1)]) "2026-01-07" = .ok [("foo", J.num 1)] ∧
    (Except.ok [("foo", J.num 1)] : Res Flat) ≠ .ok [] := by
  exact ⟨rfl, by simp⟩

/-- C3 (amended).  A fetched value that is not a dict yields the empty
mapping; a dict without a `data` key is returned unchanged. -/
theorem unexpected_shape_amended :
    (∀ (raw : J) (t : String), raw.isObj = false → extract raw t = .ok []) ∧
    (∀ (fs : List (String × J)) (t : String), lookupJ fs "data" = none →
        extract (J.obj fs) t = .ok fs) := by
  constructor
  · intro raw t h
    cases raw <;> simp_all [extract, J.isObj]
  · intro fs t h
    simp [extract, h]

/-- Witness for the amended C3 at a non-dict payload and at a dict without
`data`. -/
theorem unexpected_shape_amended_witness :
    extract (J.arr []) "2026-01-07" = .ok [] ∧
    extract (J.obj [("foo", J.num 1)]) "2026-01-07" = .ok [("foo", J.num 1)] :=
  ⟨unexpected_shape_amended.1 (J.arr []) "2026-01-07" rfl,
   unexpected_shape_amended.2 [("foo", J.num 1)] "2026-01-07" rfl⟩

/-- C2 counterexample: at setup, the key `foo` is present in the mapping and
claimed by no static schema, yet no descriptor at all is produced for it —
`async_setup_entry` never invokes the inferencer path. -/
theorem setup_skips_unclaimed_key_counterexample :
    lookupJ [("foo", J.num 1)] "foo" = some (J.num 1) ∧
    "foo" ∉ predefinedKeys ∧
    async_setup_entry [("foo", J.num 1)] = [] := by
  exact ⟨rfl, by decide, rfl⟩

/-- C2 (amended).  Entity setup runs only the static pass: every produced
descriptor's key belongs to the static schema table, so no descriptor is ever
built for a remaining (unclaimed) mapping key. -/
theorem setup_static_only (data : Flat) (d : Desc)
    (hd : d ∈ async_setup_entry data) : d.key ∈ predefinedKeys := by
  simp only [async_setup_entry] at hd
  exact List.mem_map_of_mem Desc.key (List.mem_of_mem_filter hd)

/-- Witness for the amended C2: the static `steps` descriptor survives setup
on a mapping carrying `steps`. -/
theorem setup_static_only_witness :
    (⟨"steps", none, some "steps", some .totalIncreasing, staticValueFn "steps"⟩ : Desc).key
      ∈ predefinedKeys := by
  refine setup_static_only [("steps", J.num 5)] _ ?_
  have h : async_setup_entry [("steps", J.num 5)] =
      [⟨"steps", none, some "steps", some .totalIncreasing, staticValueFn "steps"⟩] := rfl
  rw [h]
  exact List.mem_singleton_self _

/-- C7.  The inferencer applies its substring rules on the lower-cased name
in the fixed priority order (temperature, duration/time/sleep,
heart_rate/hrv/pulse, step, energy/calorie, distance, weight), first match
winning for every name; `body_temperature` infers the temperature class with
unit °C and `total_distance` the distance class with unit m and the
monotonically-increasing state class. -/
theorem infer_priority_order :
    infer_device_class_and_unit "body_temperature" =
      (some .temperature, some "°C", some .measurement) ∧
    infer_device_class_and_unit "total_distance" =
      (some .distance, some "m", some .totalIncreasing) ∧
    ∀ key, infer_device_class_and_unit key = infer_spec key := by
  refine ⟨by decide, by decide, ?_⟩
  intro key
  simp only [infer_device_class_and_unit, infer_spec, List.find?]
  rcases h1 : strIn "temperature" (pyLower key) || strIn "temp" (pyLower key) with _ | _ <;>
  rcases h2 : strIn "duration" (pyLower key) || strIn "time" (pyLower key) ||
      strIn "sleep" (pyLower key) with _ | _ <;>
  rcases h3 : strIn "heart_rate" (pyLower key) || strIn "hrv" (pyLower key) ||
      strIn "pulse" (pyLower key) with _ | _ <;>
  rcases h4 : strIn "step" (pyLower key) with _ | _ <;>
  rcases h5 : strIn "energy" (pyLower key) || strIn "calorie" (pyLower key) with _ | _ <;>
  rcases h6 : strIn "distance" (pyLower key) with _ | _ <;>
  rcases h7 : strIn "weight" (pyLower key) with _ | _ <;>
  simp_all <;>
  split <;> rfl

/-- C4 counterexample: on the mapping with a nested dict `a.b` and a
top-level key `a_b`, the recursive projection emits two descriptors that
share the canonical key `a_b`. -/
theorem duplicate_descriptor_keys_counterexample :
    (create_sensors_from_data [("a", J.obj [("b", J.num 1)]), ("a_b", J.num 2)] "").map Desc.key
        = ["a_b", "a_b"] ∧
    ¬ ((create_sensors_from_data [("a", J.obj [("b", J.num 1)]), ("a_b", J.num 2)] "").map Desc.key).Nodup := by
  constructor
  · rfl
  · rw [(rfl : (create_sensors_from_data [("a", J.obj [("b", J.num 1)]), ("a_b", J.num 2)] "").map Desc.key = ["a_b", "a_b"])]
    decide

theorem count_suffix_not_static (s : String) : s ++ "_count" ∉ predefinedKeys := by
  intro h
  have hsuf : "_count".data <:+ (s ++ "_count").data := by
    rw [String.data_append]
    exact List.suffix_append _ _
  have hall : ∀ k ∈ predefinedKeys, ¬ ("_count".data <:+ k.data) := by decide
  exact hall _ h hsuf

theorem sum_suffix_not_static (s : String) : s ++ "_sum" ∉ predefinedKeys := by
  intro h
  have hsuf : "_sum".data <:+ (s ++ "_sum").data := by
    rw [String.data_append]
    exact List.suffix_append _ _
  have hall : ∀ k ∈ predefinedKeys, ¬ ("_sum".data <:+ k.data) := by decide
  exact hall _ h hsuf

theorem keys_not_static_aux :
    ∀ n : Nat, ∀ (m : List (String × J)) (pfx : String), sizeOf m ≤ n →
      ∀ d ∈ create_sensors_from_data m pfx, d.key ∉ predefinedKeys := by
  intro n
  induction n using Nat.strong_induction_on with
  | _ n ih =>
    intro m pfx hsz d hd
    match m with
    | [] => simp [create_sensors_from_data] at hd
    | (key, value) :: rest =>
      rw [create_sensors_from_data] at hd
      rcases List.mem_append.mp hd with hleft | hright
      · by_cases hg : fullKeyOf pfx key ∈ predefinedKeys ∨ key ∈ predefinedKeys
        · rw [if_pos hg] at hleft
          simp at hleft
        · rw [if_neg hg] at hleft
          have hnf : fullKeyOf pfx key ∉ predefinedKeys := fun hmem => hg (Or.inl hmem)
          match value with
          | .num q =>
              have hkey : d = numericDesc pfx key (fullKeyOf pfx key) := by
                simpa [descsForValue] using hleft
              subst hkey
              simpa [numericDesc] using hnf
          | .str s =>
              have hkey : d.key = fullKeyOf pfx key := by
                rcases hp : numCheck s with _ | _
                · simp [descsForValue, hp] at hleft
                  subst hleft
                  simp [strDesc]
                · rcases hq : parseFloat s with _ | q
                  · simp [descsForValue, hp, hq] at hleft
                    subst hleft
                    simp [strDesc]
                  · simp [descsForValue, hp, hq] at hleft
                    subst hleft
                    simp [floatStrDesc]
              rw [hkey]
              exact hnf
          | .obj gs =>
              have hmem : d ∈ create_sensors_from_data gs (fullKeyOf pfx key) := by
                simpa [descsForValue] using hleft
              have hlt : sizeOf gs < n := by
                have h1 : sizeOf gs < sizeOf ((key, J.obj gs) :: rest) := by
                  simp only [List.cons.sizeOf_spec, Prod.mk.sizeOf_spec, J.obj.sizeOf_spec]
                  omega
                omega
              exact ih (sizeOf gs) hlt gs (fullKeyOf pfx key) le_rfl d hmem
          | .arr es =>
              match es with
              | [] => simp [descsForValue] at hleft
              | e :: etail =>
                  by_cases he : e.isNum = true
                  · have : d = countDesc pfx key (fullKeyOf pfx key)
                        ∨ d = sumDesc pfx key (fullKeyOf pfx key) := by
                      simpa [descsForValue, he] using hleft
                    rcases this with rfl | rfl
                    · simpa [countDesc] using count_suffix_not_static (fullKeyOf pfx key)
                    · simpa [sumDesc] using sum_suffix_not_static (fullKeyOf pfx key)
                  · simp [descsForValue, he] at hleft
          | .null => simp [descsForValue] at hleft
      · have hlt : sizeOf rest < n := by
          have h1 : sizeOf rest < sizeOf ((key, value) :: rest) := by
            simp only [List.cons.sizeOf_spec]
            omega
          omega
        exact ih (sizeOf rest) hlt rest pfx le_rfl d hright

/-- C4 (amended).  The static pass alone yields pairwise-distinct descriptor
keys, and no descriptor produced by the recursive inferencer pass ever has a
key claimed by a static schema (the static schema wins every exact-key
collision); however the inferencer pass can emit two descriptors with the
same key for different source paths, as the counterexample shows. -/
theorem no_inferred_static_collision :
    (∀ data : Flat, ((async_setup_entry data).map Desc.key).Nodup) ∧
    (∀ (m : List (String × J)) (pfx : String),
        ∀ d ∈ create_sensors_from_data m pfx, d.key ∉ predefinedKeys) := by
  constructor
  · intro data
    have hsub : ((async_setup_entry data).map Desc.key).Sublist
        (SENSOR_DESCRIPTIONS.map Desc.key) :=
      (List.filter_sublist _).map _
    have hnodup : (SENSOR_DESCRIPTIONS.map Desc.key).Nodup := by decide
    exact hnodup.sublist hsub
  · intro m pfx d hd
    exact keys_not_static_aux (sizeOf m) m pfx le_rfl d hd

/-- Witness for the amended C4: a leftover numeric key infers a descriptor
whose key is not statically claimed. -/
theorem no_inferred_static_collision_witness :
    (((async_setup_entry [("foo", J.num 1)]).map Desc.key).Nodup) ∧
    ((numericDesc "" "foo" "foo").key ∉ predefinedKeys) :=
  ⟨no_inferred_static_collision.1 [("foo", J.num 1)],
   no_inferred_static_collision.2 [("foo", J.num 1)] "" (numericDesc "" "foo" "foo")
     (by rw [(rfl : create_sensors_from_data [("foo", J.num 1)] "" = [numericDesc "" "foo" "foo"])]
         exact List.mem_singleton_self _)⟩

theorem pySum_all_num : ∀ (xs : List J) (q : Rat), pySum xs = .ok q →
    ∀ x ∈ xs, x.isNum = true := by
  intro xs
  induction xs with
  | nil => simp
  | cons x rest ih =>
      intro q h y hy
      cases x with
      | num a =>
          rcases List.mem_cons.mp hy with rfl | hy2
          · rfl
          · rcases hr : pySum rest with e | s
            · rw [pySum, hr] at h
              simp [Bind.bind, Except.bind] at h
            · exact ih s hr y hy2
      | null => simp [pySum] at h
      | str s => simp [pySum] at h
      | arr es => simp [pySum] at h
      | obj fs => simp [pySum] at h

theorem count_sum_descs_mem (k : String) (vs : List Rat) :
    ∀ m : List (String × J), lookupJ m k = some (J.arr (vs.map J.num)) →
      k ∉ predefinedKeys → vs ≠ [] →
      countDesc "" k k ∈ create_sensors_from_data m "" ∧
      sumDesc "" k k ∈ create_sensors_from_data m "" := by
  intro m
  induction m with
  | nil => intro h; simp [lookupJ] at h
  | cons kv rest ih =>
      intro hlk hk hne
      obtain ⟨k0, v0⟩ := kv
      rw [create_sensors_from_data]
      by_cases h0 : (k0 == k) = true
      · have hk0 : k0 = k := by simpa using h0
        subst hk0
        have hv : v0 = J.arr (vs.map J.num) := by
          have := hlk
          simp [lookupJ] at this
          exact this
        subst hv
        have hguard : ¬ (fullKeyOf "" k0 ∈ predefinedKeys ∨ k0 ∈ predefinedKeys) := by
          simp [fullKeyOf]
          exact hk
        rw [if_neg hguard]
        match vs, hne with
        | v :: vt, _ =>
            constructor
            · apply List.mem_append_left
              simp [descsForValue, fullKeyOf, J.isNum]
            · apply List.mem_append_left
              simp [descsForValue, fullKeyOf, J.isNum]
      · have hlk2 : lookupJ rest k = some (J.arr (vs.map J.num)) := by
          simpa [lookupJ, h0] using hlk
        obtain ⟨h1, h2⟩ := ih hlk2 hk hne
        exact ⟨List.mem_append_right _ h1, List.mem_append_right _ h2⟩

/-- C8.  A leftover key holding a nonempty numeric array and claimed by no
static schema projects a `<key>_count` descriptor whose accessor returns the
array length and a `<key>_sum` descriptor whose accessor returns the
arithmetic sum, the sum being produced only when all elements are numeric. -/
theorem numeric_array_count_sum
    (m : List (String × J)) (k : String) (vs : List Rat)
    (hlk : lookupJ m k = some (J.arr (vs.map J.num)))
    (hk : k ∉ predefinedKeys) (hne : vs ≠ []) :
    ∃ dc ds,
      dc ∈ create_sensors_from_data m "" ∧ ds ∈ create_sensors_from_data m "" ∧
      dc.key = k ++ "_count" ∧ ds.key = k ++ "_sum" ∧
      dc.valueFn m = .ok (J.num ((vs.length : Nat) : Rat)) ∧
      ds.valueFn m = .ok (J.num vs.sum) ∧
      (∀ (d2 : Flat) (xs : List J) (q : Rat),
          lookupJ d2 k = some (J.arr xs) → ds.valueFn d2 = .ok (J.num q) →
          ∀ x ∈ xs, x.isNum = true) := by
  obtain ⟨h1, h2⟩ := count_sum_descs_mem k vs m hlk hk hne
  refine ⟨countDesc "" k k, sumDesc "" k k, h1, h2, rfl, rfl, ?_, ?_, ?_⟩
  · simp [countDesc, countValueFn, dGetD, hlk, pyLen, Bind.bind, Except.bind]
  · simp [sumDesc, sumValueFn, dGet, dGetD, hlk, J.isArr, pySum_map_num,
          Bind.bind, Except.bind]
  · intro d2 xs q hlk2 hval x hx
    simp [sumDesc, sumValueFn, dGet, dGetD, hlk2, J.isArr,
          Bind.bind, Except.bind] at hval
    rcases hs : pySum xs with e | s
    · rw [hs] at hval
      simp at hval
    · exact pySum_all_num xs s hs x hx

/-- Witness for C8: `splits = [1, 2, 3]` projects `splits_count` evaluating
to 3 and `splits_sum` evaluating to 6. -/
theorem numeric_array_count_sum_witness :
    ∃ dc ds,
      dc ∈ create_sensors_from_data [("splits", J.arr [J.num 1, J.num 2, J.num 3])] "" ∧
      ds ∈ create_sensors_from_data [("splits", J.arr [J.num 1, J.num 2, J.num 3])] "" ∧
      dc.key = "splits_count" ∧ ds.key = "splits_sum" ∧
      dc.valueFn [("splits", J.arr [J.num 1, J.num 2, J.num 3])] = .ok (J.num 3) ∧
      ds.valueFn [("splits", J.arr [J.num 1, J.num 2, J.num 3])] = .ok (J.num 6) := by
  obtain ⟨dc, ds, h1, h2, h3, h4, h5, h6, h7⟩ :=
    numeric_array_count_sum [("splits", J.arr [J.num 1, J.num 2, J.num 3])]
      "splits" [1, 2, 3] rfl (by decide) (by simp)
  refine ⟨dc, ds, h1, h2, h3, h4, ?_, ?_⟩
  · simpa using h5
  · have h6' := h6
    norm_num at h6'
    exact h6'

/-- C9.  The two descriptors built from a numeric-array key disagree about
absence: on a mapping lacking the key, the `<key>_count` accessor returns the
number 0 while the `<key>_sum` accessor returns `None`. -/
theorem count_sum_absence_disagree
    (m : List (String × J)) (k : String) (vs : List Rat)
    (hlk : lookupJ m k = some (J.arr (vs.map J.num)))
    (hk : k ∉ predefinedKeys) (hne : vs ≠ []) :
    ∃ dc ds,
      dc ∈ create_sensors_from_data m "" ∧ ds ∈ create_sensors_from_data m "" ∧
      dc.key = k ++ "_count" ∧ ds.key = k ++ "_sum" ∧
      ∀ d2 : Flat, lookupJ d2 k = none → lookupJ d2 "" = none →
        dc.valueFn d2 = .ok (J.num 0) ∧ ds.valueFn d2 = .ok J.null := by
  obtain ⟨h1, h2⟩ := count_sum_descs_mem k vs m hlk hk hne
  refine ⟨countDesc "" k k, sumDesc "" k k, h1, h2, rfl, rfl, ?_⟩
  intro d2 hnone hempty
  constructor
  · simp [countDesc, countValueFn, dGetD, hnone, pyLen, Bind.bind, Except.bind]
  · simp [sumDesc, sumValueFn, dGet, dGetD, hnone, hempty, J.isArr]

/-- Witness for C9: the `splits` descriptors applied to the empty mapping. -/
theorem count_sum_absence_disagree_witness :
    ∃ dc ds,
      dc ∈ create_sensors_from_data [("splits", J.arr [J.num 1, J.num 2, J.num 3])] "" ∧
      ds ∈ create_sensors_from_data [("splits", J.arr [J.num 1, J.num 2, J.num 3])] "" ∧
      dc.key = "splits_count" ∧ ds.key = "splits_sum" ∧
      dc.valueFn [] = .ok (J.num 0) ∧ ds.valueFn [] = .ok J.null := by
  obtain ⟨dc, ds, h1, h2, h3, h4, h5⟩ :=
    count_sum_absence_disagree [("splits", J.arr [J.num 1, J.num 2, J.num 3])]
      "splits" [1, 2, 3] rfl (by decide) (by simp)
  obtain ⟨hc, hs⟩ := h5 [] rfl rfl
  exact ⟨dc, ds, h1, h2, h3, h4, hc, hs⟩

theorem hrValues_ok : ∀ es : List J, es.all wfHrElem = true →
    ∃ xs, hrValues es = .ok xs ∧ ∀ x ∈ xs, x.isNum = true := by
  intro es
  induction es with
  | nil => exact fun _ => ⟨[], rfl, by simp⟩
  | cons e rest ih =>
      intro h
      rw [List.all_cons, Bool.and_eq_true] at h
      obtain ⟨he, hrest⟩ := h
      obtain ⟨xs, hxs, hnum⟩ := ih hrest
      cases e with
      | obj fs =>
          rcases hv : lookupJ fs "value" with _ | x
          · refine ⟨xs, ?_, hnum⟩
            simp [hrValues, pyIn, hv, Bind.bind, Except.bind, hxs]
          · have hxnum : x.isNum = true := by
              simpa [wfHrElem, wfValueNum, hv] using he
            refine ⟨x :: xs, ?_, ?_⟩
            · simp [hrValues, pyIn, pyGet, pyGetD, hv, Bind.bind, Except.bind, hxs]
            · intro y hy
              rcases List.mem_cons.mp hy with rfl | hy2
              · exact hxnum
              · exact hnum y hy2
      | null => simp [wfHrElem] at he
      | num q => simp [wfHrElem] at he
      | str s => simp [wfHrElem] at he
      | arr es2 => simp [wfHrElem] at he

theorem pySum_ok : ∀ xs : List J, (∀ x ∈ xs, x.isNum = true) →
    ∃ s, pySum xs = .ok s := by
  intro xs
  induction xs with
  | nil => exact fun _ => ⟨0, rfl⟩
  | cons x rest ih =>
      intro h
      obtain ⟨s, hs⟩ := ih (fun y hy => h y (List.mem_cons_of_mem x hy))
      have hx := h x (List.mem_cons_self x rest)
      cases x with
      | num q => exact ⟨q + s, by simp [pySum, Bind.bind, Except.bind, hs]⟩
      | null => simp [J.isNum] at hx
      | str s2 => simp [J.isNum] at hx
      | arr es => simp [J.isNum] at hx
      | obj fs => simp [J.isNum] at hx

theorem pyMinGo_ok : ∀ (xs : List J) (a : J), a.isNum = true →
    (∀ x ∈ xs, x.isNum = true) → ∃ mv, pyMinGo a xs = .ok mv := by
  intro xs
  induction xs with
  | nil => exact fun a _ _ => ⟨a, by simp [pyMinGo]⟩
  | cons x rest ih =>
      intro a ha h
      have hx := h x (List.mem_cons_self x rest)
      cases a with
      | num q =>
          cases x with
          | num r =>
              obtain ⟨mv, hmv⟩ :=
                ih (if r < q then J.num r else J.num q) (by split <;> rfl)
                  (fun y hy => h y (List.mem_cons_of_mem _ hy))
              exact ⟨mv, by simpa [pyMinGo] using hmv⟩
          | null => simp [J.isNum] at hx
          | str s => simp [J.isNum] at hx
          | arr es => simp [J.isNum] at hx
          | obj fs => simp [J.isNum] at hx
      | null => simp [J.isNum] at ha
      | str s => simp [J.isNum] at ha
      | arr es => simp [J.isNum] at ha
      | obj fs => simp [J.isNum] at ha

theorem pyMaxGo_ok : ∀ (xs : List J) (a : J), a.isNum = true →
    (∀ x ∈ xs, x.isNum = true) → ∃ mv, pyMaxGo a xs = .ok mv := by
  intro xs
  induction xs with
  | nil => exact fun a _ _ => ⟨a, by simp [pyMaxGo]⟩
  | cons x rest ih =>
      intro a ha h
      have hx := h x (List.mem_cons_self x rest)
      cases a with
      | num q =>
          cases x with
          | num r =>
              obtain ⟨mv, hmv⟩ :=
                ih (if q < r then J.num r else J.num q) (by split <;> rfl)
                  (fun y hy => h y (List.mem_cons_of_mem _ hy))
              exact ⟨mv, by simpa [pyMaxGo] using hmv⟩
          | null => simp [J.isNum] at hx
          | str s => simp [J.isNum] at hx
          | arr es => simp [J.isNum] at hx
          | obj fs => simp [J.isNum] at hx
      | null => simp [J.isNum] at ha
      | str s => simp [J.isNum] at ha
      | arr es => simp [J.isNum] at ha
      | obj fs => simp [J.isNum] at ha

theorem hrBranch_ok (ob : J) (hwf : wfHr ob = true) (flat : Flat) :
    ∃ f2, hrBranch flat ob = .ok f2 := by
  cases ob with
  | obj fs =>
      rcases hv : lookupJ fs "values" with _ | v
      · exact ⟨flat, by simp [hrBranch, pyIn, hv, Bind.bind, Except.bind]⟩
      · cases v with
        | arr es =>
            have hall : es.all wfHrElem = true := by
              simpa [wfHr, hv] using hwf
            obtain ⟨xs, hxs, hnum⟩ := hrValues_ok es hall
            match xs, hxs, hnum with
            | [], hxs, _ =>
                exact ⟨flat, by
                  simp [hrBranch, pyIn, pyIndex, hv, Bind.bind, Except.bind, hxs]⟩
            | x :: xt, hxs, hnum =>
                obtain ⟨s, hsum⟩ := pySum_ok (x :: xt) hnum
                obtain ⟨mn, hmn⟩ := pyMinGo_ok xt x (hnum x (by simp))
                  (fun y hy => hnum y (List.mem_cons_of_mem x hy))
                obtain ⟨mx, hmx⟩ := pyMaxGo_ok xt x (hnum x (by simp))
                  (fun y hy => hnum y (List.mem_cons_of_mem x hy))
                refine ⟨upsert (upsert (upsert flat
                    "heart_rate_avg" (.num (s / (((x :: xt).length : Nat) : Rat))))
                    "heart_rate_min" mn) "heart_rate_max" mx, ?_⟩
                simp [hrBranch, pyIn, pyIndex, hv, Bind.bind, Except.bind, hxs,
                      hsum, pyMin, pyMax, hmn, hmx]
        | null =>
            exact ⟨flat, by simp [hrBranch, pyIn, pyIndex, hv, Bind.bind, Except.bind]⟩
        | num q =>
            exact ⟨flat, by simp [hrBranch, pyIn, pyIndex, hv, Bind.bind, Except.bind]⟩
        | str s =>
            exact ⟨flat, by simp [hrBranch, pyIn, pyIndex, hv, Bind.bind, Except.bind]⟩
        | obj gs =>
            exact ⟨flat, by simp [hrBranch, pyIn, pyIndex, hv, Bind.bind, Except.bind]⟩
  | null => simp [wfHr] at hwf
  | num q => simp [wfHr] at hwf
  | str s => simp [wfHr] at hwf
  | arr es => simp [wfHr] at hwf

theorem nightRhrBranch_ok (ob : J) (hwf : wfNightRhr ob = true) (flat : Flat) :
    ∃ f2, nightRhrBranch flat ob = .ok f2 := by
  cases ob with
  | obj fs =>
      rcases ha : lookupJ fs "avg" with _ | av
      · rcases hv : lookupJ fs "values" with _ | v
        · exact ⟨flat, by simp [nightRhrBranch, pyIn, ha, hv, Bind.bind, Except.bind]⟩
        · cases v with
          | arr es =>
              match hes : es.getLast? with
              | none =>
                  have hnil : es = [] := by
                    cases es with
                    | nil => rfl
                    | cons e et => simp [List.getLast?_concat] at hes
                  subst hnil
                  exact ⟨flat, by
                    simp [nightRhrBranch, pyIn, pyIndex, ha, hv, lookupJ,
                          Bind.bind, Except.bind]⟩
              | some latest =>
                  cases latest with
                  | obj gs =>
                      rcases hval : lookupJ gs "value" with _ | x
                      · exact ⟨flat, by
                          simp [nightRhrBranch, pyIn, pyIndex, ha, hv, hes, hval,
                                Bind.bind, Except.bind]⟩
                      · exact ⟨upsert flat "heart_rate_resting" x, by
                          simp [nightRhrBranch, pyIn, pyIndex, ha, hv, hes, hval,
                                Bind.bind, Except.bind]⟩
                  | null => simp [wfNightRhr, ha, hv, hes] at hwf
                  | num q => simp [wfNightRhr, ha, hv, hes] at hwf
                  | str s => simp [wfNightRhr, ha, hv, hes] at hwf
                  | arr es2 => simp [wfNightRhr, ha, hv, hes] at hwf
          | null =>
              exact ⟨flat, by simp [nightRhrBranch, pyIn, pyIndex, ha, hv, Bind.bind, Except.bind]⟩
          | num q =>
              exact ⟨flat, by simp [nightRhrBranch, pyIn, pyIndex, ha, hv, Bind.bind, Except.bind]⟩
          | str s =>
              exact ⟨flat, by simp [nightRhrBranch, pyIn, pyIndex, ha, hv, Bind.bind, Except.bind]⟩
          | obj gs =>
              exact ⟨flat, by simp [nightRhrBranch, pyIn, pyIndex, ha, hv, Bind.bind, Except.bind]⟩
      · exact ⟨upsert flat "heart_rate_resting" av, by
          simp [nightRhrBranch, pyIn, pyIndex, ha, Bind.bind, Except.bind]⟩
  | null => simp [wfNightRhr] at hwf
  | num q => simp [wfNightRhr] at hwf
  | str s => simp [wfNightRhr] at hwf
  | arr es => simp [wfNightRhr] at hwf

theorem valueBranch_ok (key : String) (ob : J) (hwf : ob.isObj = true) (flat : Flat) :
    ∃ f2, valueBranch key flat ob = .ok f2 := by
  cases ob with
  | obj fs =>
      rcases hv : lookupJ fs "value" with _ | x
      · exact ⟨flat, by simp [valueBranch, pyIn, pyIndex, hv, Bind.bind, Except.bind]⟩
      · exact ⟨upsert flat key x, by
          simp [valueBranch, pyIn, pyIndex, hv, Bind.bind, Except.bind]⟩
  | null => simp [J.isObj] at hwf
  | num q => simp [J.isObj] at hwf
  | str s => simp [J.isObj] at hwf
  | arr es => simp [J.isObj] at hwf

theorem sleepQm_ok (qm : J) (hwf : wfSleepQmItem qm = true) (flat : Flat) :
    ∃ f2, sleepQm flat qm = .ok f2 := by
  cases qm with
  | obj fs =>
      rcases ht : lookupJ fs "type" with _ | ty
      · exact ⟨flat, by simp [sleepQm, ht]⟩
      · by_cases h1 : ty.isStr "total_sleep" = true
        · rcases hv : lookupJ fs "value" with _ | x
          · exact ⟨flat, by simp [sleepQm, ht, h1, hv]⟩
          · have hx : x.isNum = true := by
              simpa [wfSleepQmItem, ht, h1, wfValueNum, hv] using hwf
            cases x with
            | num q =>
                exact ⟨upsert flat "sleep_duration" (.num (q / 60)), by
                  simp [sleepQm, ht, h1, hv, pyDiv60, Bind.bind, Except.bind]⟩
            | null => simp [J.isNum] at hx
            | str s => simp [J.isNum] at hx
            | arr es => simp [J.isNum] at hx
            | obj gs => simp [J.isNum] at hx
        · by_cases h2 : ty.isStr "sleep_index" = true
          · rcases hv : lookupJ fs "value" with _ | x
            · exact ⟨flat, by simp [sleepQm, ht, h1, h2, hv]⟩
            · exact ⟨upsert flat "sleep_quality" x, by simp [sleepQm, ht, h1, h2, hv]⟩
          · by_cases h3 : ty.isStr "time_in_bed" = true
            · rcases hv : lookupJ fs "value" with _ | x
              · exact ⟨flat, by simp [sleepQm, ht, h1, h2, h3, hv]⟩
              · have hx : x.isNum = true := by
                  simpa [wfSleepQmItem, ht, h1, h3, wfValueNum, hv] using hwf
                cases x with
                | num q =>
                    exact ⟨upsert flat "time_in_bed" (.num (q / 60)), by
                      simp [sleepQm, ht, h1, h2, h3, hv, pyDiv60, Bind.bind, Except.bind]⟩
                | null => simp [J.isNum] at hx
                | str s => simp [J.isNum] at hx
                | arr es => simp [J.isNum] at hx
                | obj gs => simp [J.isNum] at hx
            · exact ⟨flat, by simp [sleepQm, ht, h1, h2, h3]⟩
  | null => exact ⟨flat, by simp [sleepQm]⟩
  | num q => exact ⟨flat, by simp [sleepQm]⟩
  | str s => exact ⟨flat, by simp [sleepQm]⟩
  | arr es => exact ⟨flat, by simp [sleepQm]⟩

theorem sleepQms_ok : ∀ (qs : List J), qs.all wfSleepQmItem = true →
    ∀ flat, ∃ f2, sleepQms flat qs = .ok f2 := by
  intro qs
  induction qs with
  | nil => exact fun _ flat => ⟨flat, rfl⟩
  | cons qm rest ih =>
      intro h flat
      rw [List.all_cons, Bool.and_eq_true] at h
      obtain ⟨f1, hf1⟩ := sleepQm_ok qm h.1 flat
      obtain ⟨f2, hf2⟩ := ih h.2 f1
      exact ⟨f2, by simp [sleepQms, Bind.bind, Except.bind, hf1, hf2]⟩

theorem sleepBranch_ok (ob : J) (hwf : wfSleep ob = true) (flat : Flat) :
    ∃ f2, sleepBranch flat ob = .ok f2 := by
  cases ob with
  | obj fs =>
      rcases hq : lookupJ fs "quick_metrics" with _ | v
      · exact ⟨flat, by simp [sleepBranch, pyIn, hq, Bind.bind, Except.bind]⟩
      · cases v with
        | arr qs =>
            have hall : qs.all wfSleepQmItem = true := by
              simpa [wfSleep, wfQuickMetrics, hq] using hwf
            obtain ⟨f2, hf2⟩ := sleepQms_ok qs hall flat
            exact ⟨f2, by simp [sleepBranch, pyIn, pyIndex, hq, Bind.bind, Except.bind, hf2]⟩
        | str s =>
            exact ⟨flat, by simp [sleepBranch, pyIn, pyIndex, hq, Bind.bind, Except.bind]⟩
        | obj gs =>
            exact ⟨flat, by simp [sleepBranch, pyIn, pyIndex, hq, Bind.bind, Except.bind]⟩
        | null => simp [wfSleep, wfQuickMetrics, hq] at hwf
        | num q => simp [wfSleep, wfQuickMetrics, hq] at hwf
  | null => simp [wfSleep] at hwf
  | num q => simp [wfSleep] at hwf
  | str s => simp [wfSleep] at hwf
  | arr es => simp [wfSleep] at hwf

theorem activeMinutesBranch_ok (ob : J) (hwf : wfActiveMinutes ob = true) (flat : Flat) :
    ∃ f2, activeMinutesBranch flat ob = .ok f2 := by
  cases ob with
  | obj fs =>
      rcases hv : lookupJ fs "value" with _ | x
      · exact ⟨flat, by simp [activeMinutesBranch, pyIn, pyIndex, hv, Bind.bind, Except.bind]⟩
      · have hx : x.isNum = true := by
          simpa [wfActiveMinutes, wfValueNum, hv] using hwf
        cases x with
        | num q =>
            exact ⟨upsert (upsert flat "activity_minutes" (.num q))
                "activity_hours" (.num (q / 60)), by
              simp [activeMinutesBranch, pyIn, pyIndex, hv, pyDiv60, Bind.bind, Except.bind]⟩
        | null => simp [J.isNum] at hx
        | str s => simp [J.isNum] at hx
        | arr es => simp [J.isNum] at hx
        | obj gs => simp [J.isNum] at hx
  | null => simp [wfActiveMinutes] at hwf
  | num q => simp [wfActiveMinutes] at hwf
  | str s => simp [wfActiveMinutes] at hwf
  | arr es => simp [wfActiveMinutes] at hwf

theorem motionBranch_ok (ob : J) (hwf : wfMotion ob = true) (flat : Flat) :
    ∃ f2, motionBranch flat ob = .ok f2 := by
  cases ob with
  | obj fs =>
      have hq := hwf
      rw [show wfMotion (J.obj fs) = wfQuickMetrics fs (fun _ => true) from rfl] at hq
      rcases hm : lookupJ fs "quick_metrics" with _ | v
      · rcases hv : lookupJ fs "value" with _ | x
        · exact ⟨flat, by simp [motionBranch, pyIn, pyIndex, hv, hm, Bind.bind, Except.bind, Pure.pure, Except.pure]⟩
        · exact ⟨upsert flat "movement_index" x, by
            simp [motionBranch, pyIn, pyIndex, hv, hm, Bind.bind, Except.bind, Pure.pure, Except.pure]⟩
      · cases v with
        | arr qs =>
            rcases hv : lookupJ fs "value" with _ | x
            · exact ⟨motionQms flat qs, by
                simp [motionBranch, pyIn, pyIndex, hv, hm, Bind.bind, Except.bind, Pure.pure, Except.pure]⟩
            · exact ⟨motionQms (upsert flat "movement_index" x) qs, by
                simp [motionBranch, pyIn, pyIndex, hv, hm, Bind.bind, Except.bind, Pure.pure, Except.pure]⟩
        | str s =>
            rcases hv : lookupJ fs "value" with _ | x
            · exact ⟨flat, by simp [motionBranch, pyIn, pyIndex, hv, hm, Bind.bind, Except.bind, Pure.pure, Except.pure]⟩
            · exact ⟨upsert flat "movement_index" x, by
                simp [motionBranch, pyIn, pyIndex, hv, hm, Bind.bind, Except.bind, Pure.pure, Except.pure]⟩
        | obj gs =>
            rcases hv : lookupJ fs "value" with _ | x
            · exact ⟨flat, by simp [motionBranch, pyIn, pyIndex, hv, hm, Bind.bind, Except.bind, Pure.pure, Except.pure]⟩
            · exact ⟨upsert flat "movement_index" x, by
                simp [motionBranch, pyIn, pyIndex, hv, hm, Bind.bind, Except.bind, Pure.pure, Except.pure]⟩
        | null => simp [wfQuickMetrics, hm] at hq
        | num q => simp [wfQuickMetrics, hm] at hq
  | null => simp [wfMotion] at hwf
  | num q => simp [wfMotion] at hwf
  | str s => simp [wfMotion] at hwf
  | arr es => simp [wfMotion] at hwf

theorem activityIndexQm_ok (qm : J) (hwf : wfAiQmItem qm = true) (flat : Flat) :
    ∃ f2, activityIndexQm flat qm = .ok f2 := by
  cases qm with
  | obj fs =>
      rcases ht : lookupJ fs "type" with _ | ty
      · exact ⟨flat, by simp [activityIndexQm, ht]⟩
      · by_cases h1 : ty.isStr "calories" = true
        · rcases hv : lookupJ fs "value" with _ | x
          · exact ⟨flat, by simp [activityIndexQm, ht, h1, hv]⟩
          · exact ⟨upsert flat "total_calories" x, by simp [activityIndexQm, ht, h1, hv]⟩
        · by_cases h2 : ty.isStr "total_calories" = true
          · rcases hv : lookupJ fs "value" with _ | x
            · exact ⟨flat, by simp [activityIndexQm, ht, h1, h2, hv]⟩
            · exact ⟨upsert flat "total_calories" x, by
                simp [activityIndexQm, ht, h1, h2, hv]⟩
          · by_cases h3 : ty.isStr "active_minutes" = true
            · rcases hv : lookupJ fs "value" with _ | x
              · exact ⟨flat, by simp [activityIndexQm, ht, h1, h2, h3, hv]⟩
              · have hx : x.isNum = true := by
                  simpa [wfAiQmItem, ht, h3, wfValueNum, hv] using hwf
                cases x with
                | num q =>
                    exact ⟨upsert (upsert flat "activity_minutes" (.num q))
                        "activity_hours" (.num (q / 60)), by
                      simp [activityIndexQm, ht, h1, h2, h3, hv, pyDiv60,
                            Bind.bind, Except.bind]⟩
                | null => simp [J.isNum] at hx
                | str s => simp [J.isNum] at hx
                | arr es => simp [J.isNum] at hx
                | obj gs => simp [J.isNum] at hx
            · exact ⟨flat, by simp [activityIndexQm, ht, h1, h2, h3]⟩
  | null => exact ⟨flat, by simp [activityIndexQm]⟩
  | num q => exact ⟨flat, by simp [activityIndexQm]⟩
  | str s => exact ⟨flat, by simp [activityIndexQm]⟩
  | arr es => exact ⟨flat, by simp [activityIndexQm]⟩

theorem activityIndexQms_ok : ∀ (qs : List J), qs.all wfAiQmItem = true →
    ∀ flat, ∃ f2, activityIndexQms flat qs = .ok f2 := by
  intro qs
  induction qs with
  | nil => exact fun _ flat => ⟨flat, rfl⟩
  | cons qm rest ih =>
      intro h flat
      rw [List.all_cons, Bool.and_eq_true] at h
      obtain ⟨f1, hf1⟩ := activityIndexQm_ok qm h.1 flat
      obtain ⟨f2, hf2⟩ := ih h.2 f1
      exact ⟨f2, by simp [activityIndexQms, Bind.bind, Except.bind, hf1, hf2]⟩

theorem activityIndexBranch_ok (ob : J) (hwf : wfActivityIndex ob = true) (flat : Flat) :
    ∃ f2, activityIndexBranch flat ob = .ok f2 := by
  cases ob with
  | obj fs =>
      have hq := hwf
      rw [show wfActivityIndex (J.obj fs) = wfQuickMetrics fs wfAiQmItem from rfl] at hq
      rcases hm : lookupJ fs "quick_metrics" with _ | v
      · rcases hv : lookupJ fs "value" with _ | x
        · exact ⟨flat, by simp [activityIndexBranch, pyIn, pyIndex, hv, hm, Bind.bind, Except.bind, Pure.pure, Except.pure]⟩
        · exact ⟨upsert flat "activity_index" x, by
            simp [activityIndexBranch, pyIn, pyIndex, hv, hm, Bind.bind, Except.bind, Pure.pure, Except.pure]⟩
      · cases v with
        | arr qs =>
            have hall : qs.all wfAiQmItem = true := by
              simpa [wfQuickMetrics, hm] using hq
            rcases hv : lookupJ fs "value" with _ | x
            · obtain ⟨f2, hf2⟩ := activityIndexQms_ok qs hall flat
              exact ⟨f2, by
                simp [activityIndexBranch, pyIn, pyIndex, hv, hm, Bind.bind, Except.bind, Pure.pure, Except.pure, hf2]⟩
            · obtain ⟨f2, hf2⟩ := activityIndexQms_ok qs hall (upsert flat "activity_index" x)
              exact ⟨f2, by
                simp [activityIndexBranch, pyIn, pyIndex, hv, hm, Bind.bind, Except.bind, Pure.pure, Except.pure, hf2]⟩
        | str s =>
            rcases hv : lookupJ fs "value" with _ | x
            · exact ⟨flat, by simp [activityIndexBranch, pyIn, pyIndex, hv, hm, Bind.bind, Except.bind, Pure.pure, Except.pure]⟩
            · exact ⟨upsert flat "activity_index" x, by
                simp [activityIndexBranch, pyIn, pyIndex, hv, hm, Bind.bind, Except.bind, Pure.pure, Except.pure]⟩
        | obj gs =>
            rcases hv : lookupJ fs "value" with _ | x
            · exact ⟨flat, by simp [activityIndexBranch, pyIn, pyIndex, hv, hm, Bind.bind, Except.bind, Pure.pure, Except.pure]⟩
            · exact ⟨upsert flat "activity_index" x, by
                simp [activityIndexBranch, pyIn, pyIndex, hv, hm, Bind.bind, Except.bind, Pure.pure, Except.pure]⟩
        | null => simp [wfQuickMetrics, hm] at hq
        | num q => simp [wfQuickMetrics, hm] at hq
  | null => simp [wfActivityIndex] at hwf
  | num q => simp [wfActivityIndex] at hwf
  | str s => simp [wfActivityIndex] at hwf
  | arr es => simp [wfActivityIndex] at hwf

theorem processRecord_ok (r : J) (hwf : wfRecord r = true) (flat : Flat) :
    ∃ f2, processRecord flat r = .ok f2 := by
  cases r with
  | obj fs =>
      rcases ht : lookupJ fs "type" with _ | ty
      · exact ⟨flat, by simp [processRecord, ht]⟩
      · rcases ho : lookupJ fs "object" with _ | ob
        · exact ⟨flat, by simp [processRecord, ht, ho]⟩
        · have hwf2 := hwf
          simp only [wfRecord, ht, ho] at hwf2
          by_cases h1 : ty.isStr "hr" = true
          · rw [if_pos h1] at hwf2
            obtain ⟨f2, hf⟩ := hrBranch_ok ob hwf2 flat
            exact ⟨f2, by simp [processRecord, ht, ho, h1, hf]⟩
          · rw [if_neg h1] at hwf2
            by_cases h2 : ty.isStr "night_rhr" = true
            · rw [if_pos h2] at hwf2
              obtain ⟨f2, hf⟩ := nightRhrBranch_ok ob hwf2 flat
              exact ⟨f2, by simp [processRecord, ht, ho, h1, h2, hf]⟩
            · rw [if_neg h2] at hwf2
              by_cases h3 : ty.isStr "avg_sleep_hrv" = true
              · rw [if_pos h3] at hwf2
                obtain ⟨f2, hf⟩ := valueBranch_ok "hrv" ob hwf2 flat
                exact ⟨f2, by simp [processRecord, ht, ho, h1, h2, h3, hf]⟩
              · rw [if_neg h3] at hwf2
                by_cases h4 : ty.isStr "sleep" = true
                · rw [if_pos h4] at hwf2
                  obtain ⟨f2, hf⟩ := sleepBranch_ok ob hwf2 flat
                  exact ⟨f2, by simp [processRecord, ht, ho, h1, h2, h3, h4, hf]⟩
                · rw [if_neg h4] at hwf2
                  by_cases h5 : ty.isStr "steps" = true
                  · rw [if_pos h5] at hwf2
                    obtain ⟨f2, hf⟩ := valueBranch_ok "steps" ob hwf2 flat
                    exact ⟨f2, by simp [processRecord, ht, ho, h1, h2, h3, h4, h5, hf]⟩
                  · rw [if_neg h5] at hwf2
                    by_cases h6 : ty.isStr "active_minutes" = true
                    · rw [if_pos h6] at hwf2
                      obtain ⟨f2, hf⟩ := activeMinutesBranch_ok ob hwf2 flat
                      exact ⟨f2, by simp [processRecord, ht, ho, h1, h2, h3, h4, h5, h6, hf]⟩
                    · rw [if_neg h6] at hwf2
                      by_cases h7 : ty.isStr "motion" = true
                      · rw [if_pos h7] at hwf2
                        obtain ⟨f2, hf⟩ := motionBranch_ok ob hwf2 flat
                        exact ⟨f2, by
                          simp [processRecord, ht, ho, h1, h2, h3, h4, h5, h6, h7, hf]⟩
                      · rw [if_neg h7] at hwf2
                        by_cases h8 : ty.isStr "activity_index" = true
                        · rw [if_pos h8] at hwf2
                          obtain ⟨f2, hf⟩ := activityIndexBranch_ok ob hwf2 flat
                          exact ⟨f2, by
                            simp [processRecord, ht, ho, h1, h2, h3, h4, h5, h6, h7, h8, hf]⟩
                        · rw [if_neg h8] at hwf2
                          by_cases h9 : ty.isStr "recovery_index" = true
                          · rw [if_pos h9] at hwf2
                            obtain ⟨f2, hf⟩ := valueBranch_ok "recovery_index" ob hwf2 flat
                            exact ⟨f2, by
                              simp [processRecord, ht, ho, h1, h2, h3, h4, h5, h6, h7, h8, h9, hf]⟩
                          · rw [if_neg h9] at hwf2
                            by_cases h10 : ty.isStr "metabolic_score" = true
                            · rw [if_pos h10] at hwf2
                              obtain ⟨f2, hf⟩ := valueBranch_ok "metabolic_score" ob hwf2 flat
                              exact ⟨f2, by
                                simp [processRecord, ht, ho, h1, h2, h3, h4, h5, h6, h7, h8,
                                      h9, h10, hf]⟩
                            · rw [if_neg h10] at hwf2
                              by_cases h11 : ty.isStr "body_temperature" = true
                              · rw [if_pos h11] at hwf2
                                obtain ⟨f2, hf⟩ := valueBranch_ok "body_temperature" ob hwf2 flat
                                exact ⟨f2, by
                                  simp [processRecord, ht, ho, h1, h2, h3, h4, h5, h6, h7, h8,
                                        h9, h10, h11, hf]⟩
                              · rw [if_neg h11] at hwf2
                                by_cases h12 : ty.isStr "vo2_max" = true
                                · rw [if_pos h12] at hwf2
                                  obtain ⟨f2, hf⟩ := valueBranch_ok "vo2_max" ob hwf2 flat
                                  exact ⟨f2, by
                                    simp [processRecord, ht, ho, h1, h2, h3, h4, h5, h6, h7, h8,
                                          h9, h10, h11, h12, hf]⟩
                                · exact ⟨flat, by
                                    simp [processRecord, ht, ho, h1, h2, h3, h4, h5, h6, h7, h8,
                                          h9, h10, h11, h12]⟩
  | null => exact ⟨flat, by simp [processRecord]⟩
  | num q => exact ⟨flat, by simp [processRecord]⟩
  | str s => exact ⟨flat, by simp [processRecord]⟩
  | arr es => exact ⟨flat, by simp [processRecord]⟩

theorem foldlM_processRecord_ok : ∀ recs : List J, (∀ r ∈ recs, wfRecord r = true) →
    ∀ flat, ∃ f2, recs.foldlM processRecord flat = .ok f2 := by
  intro recs
  induction recs with
  | nil => exact fun _ flat => ⟨flat, rfl⟩
  | cons r rest ih =>
      intro h flat
      obtain ⟨f1, hf1⟩ := processRecord_ok r (h r (List.mem_cons_self r rest)) flat
      obtain ⟨f2, hf2⟩ := ih (fun y hy => h y (List.mem_cons_of_mem _ hy)) f1
      exact ⟨f2, by simp [List.foldlM, Bind.bind, Except.bind, hf1, hf2]⟩

/-- C1 counterexample: on the payload `data: 0` the extraction raises
(`AttributeError` from `.get` on a non-dict), so an exception does escape to
the update boundary instead of every malformed level yielding an omitted
key. -/
theorem extract_raises_counterexample :
    extract (J.obj [("data", J.num 0)]) "2026-01-07" = .error .attributeError := rfl

/-- C1 (amended).  On payloads whose present levels have the container and
numeric shapes the code indexes into, extraction never raises; a record that
is not a dict (or lacks `type`/`object`) is skipped, and so is a record of
unrecognised type.  Outside that class an exception can be raised and is
converted to a failed update at the boundary, as the counterexample shows. -/
theorem extract_total_on_wellformed :
    (∀ (raw : J) (t : String), wfPayload raw t = true →
        ∃ m, extract raw t = .ok m) ∧
    (∀ (flat : Flat) (r : J), r.isObj = false → processRecord flat r = .ok flat) ∧
    (∀ (flat : Flat) (fs : List (String × J)) (ty : String) (ob : J),
        lookupJ fs "type" = some (J.str ty) → lookupJ fs "object" = some ob →
        ty ∉ recognizedTypes → processRecord flat (J.obj fs) = .ok flat) := by
  refine ⟨?_, ?_, ?_⟩
  · intro raw t hwf
    cases raw with
    | obj fs =>
        rcases hd : lookupJ fs "data" with _ | d
        · exact ⟨fs, by simp [extract, hd]⟩
        · cases d with
          | obj gs =>
              rcases hm : lookupJ gs "metrics" with _ | ms
              · exact ⟨[], by simp [extract, pyGetD, hd, hm, lookupJ, Bind.bind, Except.bind, Pure.pure, Except.pure]⟩
              · cases ms with
                | obj hs =>
                    rcases htd : lookupJ hs t with _ | tm
                    · exact ⟨[], by
                        simp [extract, pyGetD, hd, hm, htd, Bind.bind, Except.bind, Pure.pure, Except.pure]⟩
                    · cases tm with
                      | arr recs =>
                          have hall : ∀ r ∈ recs, wfRecord r = true := by
                            have := hwf
                            simp only [wfPayload, hd, hm, htd] at this
                            exact fun r hr => List.all_eq_true.mp this r hr
                          obtain ⟨f2, hf2⟩ := foldlM_processRecord_ok recs hall []
                          exact ⟨f2, by
                            simp [extract, pyGetD, hd, hm, htd, Bind.bind, Except.bind, hf2]⟩
                      | str s =>
                          exact ⟨[], by
                            simp [extract, pyGetD, hd, hm, htd, Bind.bind, Except.bind, Pure.pure, Except.pure]⟩
                      | obj os =>
                          exact ⟨[], by
                            simp [extract, pyGetD, hd, hm, htd, Bind.bind, Except.bind, Pure.pure, Except.pure]⟩
                      | null => simp [wfPayload, hd, hm, htd] at hwf
                      | num q => simp [wfPayload, hd, hm, htd] at hwf
                | null => simp [wfPayload, hd, hm] at hwf
                | num q => simp [wfPayload, hd, hm] at hwf
                | str s => simp [wfPayload, hd, hm] at hwf
                | arr es => simp [wfPayload, hd, hm] at hwf
          | null => simp [wfPayload, hd] at hwf
          | num q => simp [wfPayload, hd] at hwf
          | str s => simp [wfPayload, hd] at hwf
          | arr es => simp [wfPayload, hd] at hwf
    | null => exact ⟨[], by simp [extract]⟩
    | num q => exact ⟨[], by simp [extract]⟩
    | str s => exact ⟨[], by simp [extract]⟩
    | arr es => exact ⟨[], by simp [extract]⟩
  · intro flat r hr
    cases r with
    | obj fs => simp [J.isObj] at hr
    | null => simp [processRecord]
    | num q => simp [processRecord]
    | str s => simp [processRecord]
    | arr es => simp [processRecord]
  · intro flat fs ty ob ht ho hty
    simp only [recognizedTypes, List.mem_cons, List.not_mem_nil, or_false, not_or] at hty
    obtain ⟨n1, n2, n3, n4, n5, n6, n7, n8, n9, n10, n11, n12⟩ := hty
    simp [processRecord, ht, ho, J.isStr, n1, n2, n3, n4, n5, n6, n7, n8, n9, n10, n11, n12]

/-- Witness for the amended C1: a well-formed payload extracts without
raising; a non-dict record and an unknown-type record are skipped. -/
theorem extract_total_on_wellformed_witness :
    (∃ m, extract (mkPayload "2026-01-07" [hrRecord [60, 70, 80]]) "2026-01-07" = .ok m) ∧
    processRecord [] (J.num 5) = .ok [] ∧
    processRecord [] (J.obj [("type", J.str "unknown_metric"), ("object", J.num 3)]) = .ok [] :=
  ⟨extract_total_on_wellformed.1 (mkPayload "2026-01-07" [hrRecord [60, 70, 80]])
      "2026-01-07" (by decide),
   extract_total_on_wellformed.2.1 [] (J.num 5) rfl,
   extract_total_on_wellformed.2.2 [] [("type", J.str "unknown_metric"), ("object", J.num 3)]
      "unknown_metric" (J.num 3) rfl rfl (by decide)⟩
